import Mathlib

set_option autoImplicit false

/-!
Shallow embedding of the `bikesharecharts_collector` pipeline (`src/main.rs`).

The program reads gzip-compressed JSON snapshots of bike-share station
status, keeps the stations whose `station_status` is exactly `"active"`,
interns each `station_id` into a dense `u16` code (counter pre-incremented,
first code 1), truncates each snapshot's `last_updated` timestamp to the
start of its minute and scales it to milliseconds, and appends six parallel
column builders which are finished into one record batch at the end.

Modelling conventions:
* `u16` values are `Nat`; arithmetic that can overflow or underflow a `u16`
  is modelled with `Option` (`none` = the Rust arithmetic panic that aborts
  the run, as in a checked/debug build: the source uses plain `+` / `-`).
* The `HashMap<String, u16>` legend together with the `id_counter` local is
  an insertion-ordered association list plus a counter (`Interner`).
* Fallible decoding (gzip + serde, external libraries) is modelled by
  feeding the driver loop `Option StationStatus` values: `none` stands for
  a blob whose decompression or JSON parse fails, where the source calls
  `.unwrap()` and panics.
* An overall result of `none` models a run that panics before
  `writer.close()`, so no valid (footer-carrying) output file exists.
* `chrono`'s `from_timestamp_opt(secs, 0).unwrap().with_second(0).unwrap()`
  zeroes the civil seconds-of-minute component; on the naive (leap-free)
  timeline that is `secs - secs.rem_euclid(60)`, which is `Int`'s `%` here.
  (The range check of `from_timestamp_opt`, which only fails for
  astronomically large `|secs|`, is not modelled.)
-/

namespace Bikeshare

/-- Mirror of the `Station` struct (`src/main.rs` lines 24-41). Numeric
fields are `u16`/`u32`/`u64` in the source and are carried here as `Nat`;
`legacy_id` and `eightd_has_available_keys` are `#[serde(skip)]`ped but kept
as fields, as in the source. -/
structure Station where
  legacy_id : String
  last_reported : Nat
  num_ebikes_available : Nat
  num_bikes_available : Nat
  is_returning : Nat
  eightd_has_available_keys : Bool
  num_docks_available : Nat
  num_docks_disabled : Nat
  is_installed : Nat
  num_bikes_disabled : Nat
  station_id : String
  station_status : String
  is_renting : Nat
  deriving DecidableEq, Repr

/-- Mirror of the `Data` struct (lines 43-46). -/
structure Data where
  stations : List Station
  deriving DecidableEq, Repr

/-- Mirror of the `StationStatus` struct (lines 48-54); `last_updated` is an
`i64` in the source, hence `Int`. -/
structure StationStatus where
  data : Data
  last_updated : Int
  ttl : Nat
  deriving DecidableEq, Repr

/-- The interning state of the driver: the `id_legend: HashMap<String, u16>`
(kept as an insertion-ordered association list, so first-seen order is the
list order) and the `id_counter: u16` local (lines 72-73). -/
structure Interner where
  id_legend : List (String × Nat)
  id_counter : Nat
  deriving DecidableEq, Repr

/-- Lookup in the legend, i.e. the read half of `HashMap::entry`. -/
def lookupCode : List (String × Nat) → String → Option Nat
  | [], _ => none
  | (k, v) :: rest, s => if k = s then some v else lookupCode rest s

/-- The interner at program start: empty map, counter 0 (lines 72-73). -/
def Interner.empty : Interner := ⟨[], 0⟩

/-- One `id_legend.entry(id).or_insert_with(|| { id_counter = id_counter + 1;
id_counter })` step (lines 115-120). A present key returns its code with the
state unchanged; a fresh key runs `id_counter + 1` on the `u16` counter,
which panics when the counter is already 65535 (modelled as `none`), else
assigns the pre-incremented counter as the new code. -/
def Interner.intern (st : Interner) (s : String) : Option (Nat × Interner) :=
  match lookupCode st.id_legend s with
  | some c => some (c, st)
  | none =>
    if st.id_counter + 1 ≤ 65535 then
      some (st.id_counter + 1,
        { id_legend := st.id_legend ++ [(s, st.id_counter + 1)],
          id_counter := st.id_counter + 1 })
    else none

/-- Interning a whole first-seen sequence of identifiers, as the driver loop
does across all station rows of a run. -/
def internAll (st : Interner) : List String → Option Interner
  | [] => some st
  | s :: rest =>
    match st.intern s with
    | none => none
    | some (_, st') => internAll st' rest

/-- Civil seconds-of-minute of an epoch-seconds instant on chrono's naive
(leap-second-free) timeline. -/
def secondOfMinute (secs : Int) : Int := secs % 60

/-- The `with_second(0)` truncation (lines 102-105): zero the
seconds-of-minute component of `last_updated`. -/
def truncateToMinute (secs : Int) : Int := secs - secondOfMinute secs

/-- The value `time.timestamp_millis()` appended per station row (line 114):
the minute-truncated `last_updated`, scaled from seconds to milliseconds. -/
def timestampMillis (secs : Int) : Int := truncateToMinute secs * 1000

/-- Checked `u16` subtraction: `num_bikes_available - num_ebikes_available`
(lines 122-123) panics when the subtrahend exceeds the minuend (modelled as
`none`); otherwise it is the `Nat` difference. -/
def checkedSub (a b : Nat) : Option Nat :=
  if b ≤ a then some (a - b) else none

/-- The `station.station_status == "active"` filter predicate (line 110). -/
def isActive (s : Station) : Bool := s.station_status == "active"

/-- The six parallel `PrimitiveBuilder` columns (lines 90-95), each carried
as the list of values appended so far. -/
structure Builders where
  times : List Int
  station_ids : List Nat
  num_bikes_available : List Nat
  num_ebikes_available : List Nat
  num_bikes_disabled : List Nat
  num_docks_available : List Nat
  deriving DecidableEq, Repr

/-- The builders at program start: all columns empty (lines 90-95). -/
def Builders.empty : Builders := ⟨[], [], [], [], [], []⟩

/-- The six `append_value` calls of one loop iteration (lines 114-126), on
given builder columns: the snapshot time, the interned station code, the
checked bikes-minus-ebikes difference, and the station's e-bike / disabled /
dock counts, each pushed onto its column. -/
def appendRow (b : Builders) (time : Int) (code avail : Nat) (station : Station) : Builders :=
  { times := b.times ++ [time],
    station_ids := b.station_ids ++ [code],
    num_bikes_available := b.num_bikes_available ++ [avail],
    num_ebikes_available := b.num_ebikes_available ++ [station.num_ebikes_available],
    num_bikes_disabled := b.num_bikes_disabled ++ [station.num_bikes_disabled],
    num_docks_available := b.num_docks_available ++ [station.num_docks_available] }

/-- Body of the per-station loop (lines 113-127): intern the station id and
take the checked difference `num_bikes_available - num_ebikes_available`,
then push the row onto the six columns. A panic anywhere (interner counter
overflow or subtraction underflow) aborts the whole run, so it is `none`
here. -/
def appendStation (time : Int) (acc : Builders × Interner) (station : Station) :
    Option (Builders × Interner) :=
  match acc.2.intern station.station_id with
  | none => none
  | some (code, interner) =>
    match checkedSub station.num_bikes_available station.num_ebikes_available with
    | none => none
    | some avail => some (appendRow acc.1 time code avail station, interner)

/-- The `for station in &stations` loop (lines 113-127) over an
already-filtered station list. -/
def foldStations (time : Int) : List Station → Builders × Interner → Option (Builders × Interner)
  | [], acc => some acc
  | station :: rest, acc =>
    match appendStation time acc station with
    | none => none
    | some acc' => foldStations time rest acc'

/-- Processing of one decoded snapshot (lines 102-127): derive the
minute-truncated millisecond time, filter the station list to the `"active"`
ones, and run the per-station loop. -/
def processSnapshot (acc : Builders × Interner) (status : StationStatus) :
    Option (Builders × Interner) :=
  foldStations (timestampMillis status.last_updated)
    (status.data.stations.filter isActive) acc

/-- The driver loop (lines 97-128) from a given accumulated state: each
input is the decode outcome of one `*.json.gz` blob; `none` is a blob on
which gzip decompression or serde JSON parsing fails, where the source's
`.unwrap()` panics and the run aborts. -/
def runPipelineFrom (acc : Builders × Interner) :
    List (Option StationStatus) → Option (Builders × Interner)
  | [] => some acc
  | none :: _ => none
  | some status :: rest =>
    match processSnapshot acc status with
    | none => none
    | some acc' => runPipelineFrom acc' rest

/-- The whole run: the driver loop started from empty builders and an empty
interner. A `some` result is the final column set (the record batch built at
lines 130-150, whose columns are exactly the finished builders) together
with the final interner; `none` is a panic before `writer.close()`, i.e. no
valid output file. -/
def runPipeline (inputs : List (Option StationStatus)) : Option (Builders × Interner) :=
  runPipelineFrom (Builders.empty, Interner.empty) inputs

/-- Number of stations of a snapshot whose status is exactly `"active"`. -/
def activeCount (status : StationStatus) : Nat :=
  (status.data.stations.filter isActive).length

/-- The snapshot with every non-`"active"` station record removed. -/
def restrictActive (status : StationStatus) : StationStatus :=
  { status with data := { stations := status.data.stations.filter isActive } }

/-- Total number of rows appended over a run: the sum of the active-station
counts of the successfully decoded snapshots. -/
def totalRows (inputs : List (Option StationStatus)) : Nat :=
  ((inputs.filterMap id).map activeCount).sum

/-! Scenario A concrete data (spec §8): one snapshot, `last_updated =
1700000000`, an active station `"123"` with bikes=5, ebikes=2, disabled=1,
docks=10 and a non-active station `"456"`. -/

/-- Scenario A's active station `"123"`. -/
def stationA : Station :=
  { legacy_id := "", last_reported := 0, num_ebikes_available := 2,
    num_bikes_available := 5, is_returning := 1,
    eightd_has_available_keys := false, num_docks_available := 10,
    num_docks_disabled := 0, is_installed := 1, num_bikes_disabled := 1,
    station_id := "123", station_status := "active", is_renting := 1 }

/-- Scenario A's non-active station `"456"`. -/
def stationB : Station :=
  { legacy_id := "", last_reported := 0, num_ebikes_available := 0,
    num_bikes_available := 4, is_returning := 0,
    eightd_has_available_keys := false, num_docks_available := 7,
    num_docks_disabled := 0, is_installed := 1, num_bikes_disabled := 0,
    station_id := "456", station_status := "out_of_service", is_renting := 0 }

/-- Scenario A's snapshot. -/
def snapshotA : StationStatus :=
  { data := { stations := [stationA, stationB] }, last_updated := 1700000000,
    ttl := 0 }

/-- An active station with more available e-bikes than bikes, for the C9
witness. -/
def stationU : Station :=
  { legacy_id := "", last_reported := 0, num_ebikes_available := 2,
    num_bikes_available := 1, is_returning := 1,
    eightd_has_available_keys := false, num_docks_available := 3,
    num_docks_disabled := 0, is_installed := 1, num_bikes_disabled := 0,
    station_id := "u1", station_status := "active", is_renting := 1 }

/-- One-station snapshot around `stationU`. -/
def snapshotU : StationStatus :=
  { data := { stations := [stationU] }, last_updated := 0, ttl := 0 }

/-- Final builders of the Scenario A run. -/
def bsA : Builders :=
  { times := [1699999980000], station_ids := [1], num_bikes_available := [3],
    num_ebikes_available := [2], num_bikes_disabled := [1],
    num_docks_available := [10] }

/-- Final interner of the Scenario A run. -/
def itA : Interner := { id_legend := [("123", 1)], id_counter := 1 }

/-- The accumulated state after processing Scenario A's snapshot from the
initial state: the expected single row and interner entry. -/
def accA : Builders × Interner := (bsA, itA)

/-- Distinct test identifiers for the capacity witness: the string of `n`
letters `a`. -/
def natString (n : Nat) : String := ⟨List.replicate n 'a'⟩

/-- Invariant of every interner state reachable from the empty one: the
counter equals the number of assigned codes, stays within `u16`, keys are
distinct, and the code at (0-based) first-seen position `i` is `i + 1`. -/
def Interner.WF (st : Interner) : Prop :=
  st.id_counter = st.id_legend.length ∧
  st.id_counter ≤ 65535 ∧
  (st.id_legend.map Prod.fst).Nodup ∧
  ∀ i (h : i < st.id_legend.length), (st.id_legend.get ⟨i, h⟩).2 = i + 1

/-- Statement of the interner guarantees at a final interner state: a code
once returned for an identifier is returned again by every later interning
of that identifier with the state unchanged; codes strictly increase in
first-seen (legend) order; code 0 is never assigned; and the very first
assigned code of a run is 1. -/
def InternProperties (st : Interner) : Prop :=
  (∀ s c st1 st2 rest, st.intern s = some (c, st1) → internAll st1 rest = some st2 →
      st2.intern s = some (c, st2)) ∧
  (∀ i j (hi : i < st.id_legend.length) (hj : j < st.id_legend.length), i < j →
      (st.id_legend.get ⟨i, hi⟩).2 < (st.id_legend.get ⟨j, hj⟩).2) ∧
  (∀ p ∈ st.id_legend, p.2 ≠ 0) ∧
  (∀ s, Interner.empty.intern s = some (1, { id_legend := [(s, 1)], id_counter := 1 }))

/-- Pointwise concatenation of two builder states. -/
def appendCols (b d : Builders) : Builders :=
  { times := b.times ++ d.times,
    station_ids := b.station_ids ++ d.station_ids,
    num_bikes_available := b.num_bikes_available ++ d.num_bikes_available,
    num_ebikes_available := b.num_ebikes_available ++ d.num_ebikes_available,
    num_bikes_disabled := b.num_bikes_disabled ++ d.num_bikes_disabled,
    num_docks_available := b.num_docks_available ++ d.num_docks_available }

/-- Normalization of one decoded snapshot from a given interner state: the
rows (as columns) the snapshot contributes, together with the updated
interner. This is `processSnapshot` started on fresh buffers. -/
def normalize (it : Interner) (status : StationStatus) : Option (Builders × Interner) :=
  processSnapshot (Builders.empty, it) status

/-! Interner lemmas. -/

theorem lookupCode_append {l l' : List (String × Nat)} {s : String}
    (h : lookupCode l s = none) : lookupCode (l ++ l') s = lookupCode l' s := by
  induction l with
  | nil => rfl
  | cons p rest ih =>
    obtain ⟨k, v⟩ := p
    by_cases hk : k = s
    · simp [lookupCode, hk] at h
    · simp only [lookupCode, hk, if_false, List.cons_append] at h ⊢
      exact ih h

theorem lookupCode_append_some {l l' : List (String × Nat)} {s : String} {c : Nat}
    (h : lookupCode l s = some c) : lookupCode (l ++ l') s = some c := by
  induction l with
  | nil => simp [lookupCode] at h
  | cons p rest ih =>
    obtain ⟨k, v⟩ := p
    by_cases hk : k = s
    · simp only [lookupCode, hk, if_true] at h ⊢
      exact h
    · simp only [lookupCode, hk, if_false, List.cons_append] at h ⊢
      exact ih h

theorem lookupCode_eq_none {l : List (String × Nat)} {s : String}
    (h : s ∉ l.map Prod.fst) : lookupCode l s = none := by
  induction l with
  | nil => rfl
  | cons p rest ih =>
    obtain ⟨k, v⟩ := p
    simp only [List.map_cons, List.mem_cons] at h
    push_neg at h
    have hk : k ≠ s := fun he => h.1 he.symm
    simp only [lookupCode]
    rw [if_neg hk]
    exact ih h.2

theorem not_mem_of_lookupCode_none {l : List (String × Nat)} {s : String}
    (h : lookupCode l s = none) : s ∉ l.map Prod.fst := by
  induction l with
  | nil => simp
  | cons p rest ih =>
    obtain ⟨k, v⟩ := p
    by_cases hk : k = s
    · simp [lookupCode, hk] at h
    · simp only [lookupCode, hk, if_false] at h
      simp only [List.map_cons, List.mem_cons]
      push_neg
      exact ⟨fun he => hk he.symm, ih h⟩

theorem mem_of_lookupCode {l : List (String × Nat)} {s : String} {c : Nat}
    (h : lookupCode l s = some c) : (s, c) ∈ l := by
  induction l with
  | nil => simp [lookupCode] at h
  | cons p rest ih =>
    obtain ⟨k, v⟩ := p
    by_cases hk : k = s
    · simp only [lookupCode, hk, if_true, Option.some.injEq] at h
      subst hk h
      exact List.mem_cons_self _ _
    · simp only [lookupCode, hk, if_false] at h
      exact List.mem_cons_of_mem _ (ih h)

theorem Interner.intern_lookup {st st' : Interner} {s : String} {c : Nat}
    (h : st.intern s = some (c, st')) : lookupCode st'.id_legend s = some c := by
  unfold Interner.intern at h
  cases hl : lookupCode st.id_legend s with
  | some d =>
    rw [hl] at h
    cases h
    exact hl
  | none =>
    rw [hl] at h
    by_cases hc : st.id_counter + 1 ≤ 65535
    · rw [if_pos hc] at h
      cases h
      simp only
      rw [lookupCode_append hl]
      simp [lookupCode]
    · rw [if_neg hc] at h
      cases h

theorem Interner.intern_of_lookup {st : Interner} {s : String} {c : Nat}
    (h : lookupCode st.id_legend s = some c) : st.intern s = some (c, st) := by
  unfold Interner.intern
  rw [h]

theorem Interner.intern_preserves_lookup {st st' : Interner} {s t : String} {c d : Nat}
    (hs : lookupCode st.id_legend s = some c) (h : st.intern t = some (d, st')) :
    lookupCode st'.id_legend s = some c := by
  unfold Interner.intern at h
  cases hl : lookupCode st.id_legend t with
  | some e =>
    rw [hl] at h
    cases h
    exact hs
  | none =>
    rw [hl] at h
    by_cases hc : st.id_counter + 1 ≤ 65535
    · rw [if_pos hc] at h
      cases h
      exact lookupCode_append_some hs
    · rw [if_neg hc] at h
      cases h

theorem internAll_preserves_lookup {st st' : Interner} {s : String} {c : Nat}
    (ids : List String) (hs : lookupCode st.id_legend s = some c)
    (h : internAll st ids = some st') : lookupCode st'.id_legend s = some c := by
  induction ids generalizing st with
  | nil =>
    cases h
    exact hs
  | cons t rest ih =>
    unfold internAll at h
    cases hi : st.intern t with
    | none => rw [hi] at h; cases h
    | some p =>
      rw [hi] at h
      exact ih (Interner.intern_preserves_lookup hs hi) h

theorem Interner.WF_empty : Interner.empty.WF := by
  refine ⟨rfl, by simp [Interner.empty], by simp [Interner.empty], ?_⟩
  intro i h
  simp [Interner.empty] at h

theorem Interner.WF_intern {st st' : Interner} {s : String} {c : Nat}
    (hwf : st.WF) (h : st.intern s = some (c, st')) : st'.WF := by
  obtain ⟨hlen, hcap, hnd, hcode⟩ := hwf
  unfold Interner.intern at h
  cases hl : lookupCode st.id_legend s with
  | some d =>
    rw [hl] at h
    cases h
    exact ⟨hlen, hcap, hnd, hcode⟩
  | none =>
    rw [hl] at h
    by_cases hc : st.id_counter + 1 ≤ 65535
    · rw [if_pos hc] at h
      cases h
      refine ⟨by simp [hlen], hc, ?_, ?_⟩
      · rw [List.map_append]
        refine List.Nodup.append hnd (by simp) ?_
        intro a ha hb
        simp only [List.map_cons, List.map_nil, List.mem_singleton] at hb
        subst hb
        exact not_mem_of_lookupCode_none hl ha
      · intro i hi
        simp only [List.length_append, List.length_cons, List.length_nil] at hi
        by_cases hlt : i < st.id_legend.length
        · simp only [List.get_eq_getElem]
          rw [List.getElem_append_left hlt]
          exact hcode i hlt
        · have heq : i = st.id_legend.length := by omega
          simp only [List.get_eq_getElem]
          rw [List.getElem_append_right (by omega)]
          simp [heq, hlen]
    · rw [if_neg hc] at h
      cases h

theorem internAll_WF {st st' : Interner} (ids : List String) (hwf : st.WF)
    (h : internAll st ids = some st') : st'.WF := by
  induction ids generalizing st with
  | nil =>
    cases h
    exact hwf
  | cons t rest ih =>
    unfold internAll at h
    cases hi : st.intern t with
    | none => rw [hi] at h; cases h
    | some p =>
      rw [hi] at h
      exact ih (Interner.WF_intern hwf hi) h

theorem internAll_append (st : Interner) (l1 l2 : List String) :
    internAll st (l1 ++ l2) =
      match internAll st l1 with
      | none => none
      | some st' => internAll st' l2 := by
  induction l1 generalizing st with
  | nil => rfl
  | cons t rest ih =>
    show internAll st (t :: (rest ++ l2)) = _
    simp only [internAll]
    cases hi : st.intern t with
    | none => rfl
    | some p =>
      obtain ⟨c, st1⟩ := p
      exact ih st1

/-- C2: for every interner state reached from the empty one, repeated
interning of an identifier returns the code of its first interning (even
after arbitrary further interning activity) and leaves the state unchanged;
identifiers first seen earlier have strictly smaller codes; the first code
assigned in a run is 1; and code 0 is never assigned. -/
theorem intern_run_properties (ids : List String) (st : Interner)
    (h : internAll Interner.empty ids = some st) : InternProperties st := by
  have hwf : st.WF := internAll_WF ids Interner.WF_empty h
  obtain ⟨hlen, hcap, hnd, hcode⟩ := hwf
  refine ⟨?_, ?_, ?_, ?_⟩
  · intro s c st1 st2 rest h1 h2
    exact Interner.intern_of_lookup
      (internAll_preserves_lookup rest (Interner.intern_lookup h1) h2)
  · intro i j hi hj hij
    rw [hcode i hi, hcode j hj]
    omega
  · intro p hp
    obtain ⟨⟨i, hilt⟩, hget⟩ := List.mem_iff_get.mp hp
    rw [← hget]
    rw [hcode i hilt]
    omega
  · intro s
    rfl

/-- Witness for C2 at the concrete run that interns `"a"` then `"b"`. -/
theorem intern_run_properties_witness :
    internAll Interner.empty ["a", "b"] =
      some { id_legend := [("a", 1), ("b", 2)], id_counter := 2 } ∧
    InternProperties { id_legend := [("a", 1), ("b", 2)], id_counter := 2 } :=
  ⟨by decide, intern_run_properties ["a", "b"] _ (by decide)⟩

theorem internAll_fresh_success (ids : List String) (st : Interner) (hnd : ids.Nodup)
    (hfresh : ∀ t ∈ ids, lookupCode st.id_legend t = none)
    (hcap : st.id_counter + ids.length ≤ 65535) :
    ∃ st', internAll st ids = some st' ∧
      st'.id_counter = st.id_counter + ids.length ∧
      st'.id_legend.map Prod.fst = st.id_legend.map Prod.fst ++ ids := by
  induction ids generalizing st with
  | nil => exact ⟨st, rfl, by simp, by simp⟩
  | cons t rest ih =>
    have hlt : lookupCode st.id_legend t = none := hfresh t (List.mem_cons_self _ _)
    have hc1 : st.id_counter + 1 ≤ 65535 := by
      simp only [List.length_cons] at hcap
      omega
    have hstep : st.intern t =
        some (st.id_counter + 1,
          { id_legend := st.id_legend ++ [(t, st.id_counter + 1)],
            id_counter := st.id_counter + 1 }) := by
      unfold Interner.intern
      rw [hlt, if_pos hc1]
    have hndr : rest.Nodup := (List.nodup_cons.mp hnd).2
    have htr : t ∉ rest := (List.nodup_cons.mp hnd).1
    have hfr : ∀ u ∈ rest,
        lookupCode (st.id_legend ++ [(t, st.id_counter + 1)]) u = none := by
      intro u hu
      rw [lookupCode_append (hfresh u (List.mem_cons_of_mem _ hu))]
      have hut : t ≠ u := fun he => htr (he ▸ hu)
      simp [lookupCode, hut]
    have hcap' : ({ id_legend := st.id_legend ++ [(t, st.id_counter + 1)],
                    id_counter := st.id_counter + 1 } : Interner).id_counter
        + rest.length ≤ 65535 := by
      show st.id_counter + 1 + rest.length ≤ 65535
      simp only [List.length_cons] at hcap
      omega
    obtain ⟨st', h1, h2, h3⟩ := ih _ hndr hfr hcap'
    refine ⟨st', ?_, ?_, ?_⟩
    · unfold internAll
      rw [hstep]
      exact h1
    · have h2' : st'.id_counter = st.id_counter + 1 + rest.length := h2
      simp only [List.length_cons]
      omega
    · rw [h3]
      simp

theorem internAll_overflow (ids : List String) (st : Interner) (hne : ids ≠ [])
    (hnd : ids.Nodup) (hfresh : ∀ s ∈ ids, lookupCode st.id_legend s = none)
    (hcap : 65535 < st.id_counter + ids.length) : internAll st ids = none := by
  induction ids generalizing st with
  | nil => exact absurd rfl hne
  | cons t rest ih =>
    have hlt : lookupCode st.id_legend t = none := hfresh t (List.mem_cons_self _ _)
    by_cases hc1 : st.id_counter + 1 ≤ 65535
    · have hstep : st.intern t =
          some (st.id_counter + 1,
            { id_legend := st.id_legend ++ [(t, st.id_counter + 1)],
              id_counter := st.id_counter + 1 }) := by
        unfold Interner.intern
        rw [hlt, if_pos hc1]
      show internAll st (t :: rest) = none
      unfold internAll
      rw [hstep]
      cases rest with
      | nil =>
        exfalso
        simp only [List.length_cons, List.length_nil] at hcap
        omega
      | cons u rest' =>
        have hndr : (u :: rest').Nodup := (List.nodup_cons.mp hnd).2
        have htr : t ∉ (u :: rest') := (List.nodup_cons.mp hnd).1
        have hfr : ∀ v ∈ (u :: rest'),
            lookupCode (st.id_legend ++ [(t, st.id_counter + 1)]) v = none := by
          intro v hv
          rw [lookupCode_append (hfresh v (List.mem_cons_of_mem _ hv))]
          have hvt : t ≠ v := fun he => htr (he ▸ hv)
          simp [lookupCode, hvt]
        have hcap' : 65535 <
            ({ id_legend := st.id_legend ++ [(t, st.id_counter + 1)],
               id_counter := st.id_counter + 1 } : Interner).id_counter
              + (u :: rest').length := by
          show 65535 < st.id_counter + 1 + (u :: rest').length
          simp only [List.length_cons] at hcap ⊢
          omega
        exact ih _ (by simp) hndr hfr hcap'
    · have hstep : st.intern t = none := by
        unfold Interner.intern
        rw [hlt, if_neg hc1]
      show internAll st (t :: rest) = none
      unfold internAll
      rw [hstep]

/-- C6: when 65,536 pairwise-distinct station identifiers are encountered in
one run, the first 65,535 are interned successfully, the interning of the
65,536th fails (the `u16` counter cannot be incremented past 65535 — code 0
is reserved, so effective capacity is 65,535 codes), and therefore interning
the whole sequence aborts the run. -/
theorem intern_capacity (ids : List String) (s : String) (hnd : (ids ++ [s]).Nodup)
    (hlen : ids.length = 65535) :
    (∃ st, internAll Interner.empty ids = some st ∧ st.id_counter = 65535 ∧
      st.intern s = none) ∧
    internAll Interner.empty (ids ++ [s]) = none := by
  have hnd1 : ids.Nodup := (List.nodup_append.mp hnd).1
  have hs : s ∉ ids := by
    intro hmem
    have hdisj := (List.nodup_append.mp hnd).2.2
    exact hdisj hmem (List.mem_singleton.mpr rfl)
  obtain ⟨st, h1, h2, h3⟩ := internAll_fresh_success ids Interner.empty hnd1
    (fun t _ => rfl) (by simp [Interner.empty, hlen])
  have hcnt : st.id_counter = 65535 := by
    simpa [Interner.empty, hlen] using h2
  have hlook : lookupCode st.id_legend s = none := by
    apply lookupCode_eq_none
    rw [h3]
    simpa [Interner.empty] using hs
  have hfail : st.intern s = none := by
    unfold Interner.intern
    rw [hlook, if_neg (by omega)]
  refine ⟨⟨st, h1, hcnt, hfail⟩, ?_⟩
  rw [internAll_append, h1]
  simp only [internAll, hfail]

theorem natString_injective : Function.Injective natString := by
  intro m n h
  have hlen : (natString m).data.length = (natString n).data.length := by rw [h]
  simpa [natString] using hlen

theorem natString_range_nodup (n : Nat) : ((List.range n).map natString).Nodup :=
  List.Nodup.map natString_injective (List.nodup_range n)

/-- Witness for C6 at the concrete family of 65,536 distinct identifiers
given by `natString`. -/
theorem intern_capacity_witness :
    (((List.range 65535).map natString ++ [natString 65535]).Nodup ∧
      ((List.range 65535).map natString).length = 65535) ∧
    ((∃ st, internAll Interner.empty ((List.range 65535).map natString) = some st ∧
        st.id_counter = 65535 ∧ st.intern (natString 65535) = none) ∧
      internAll Interner.empty ((List.range 65535).map natString ++ [natString 65535]) = none) := by
  have hnd : ((List.range 65535).map natString ++ [natString 65535]).Nodup := by
    have := natString_range_nodup 65536
    rwa [List.range_succ, List.map_append] at this
  exact ⟨⟨hnd, by simp⟩, intern_capacity _ _ hnd (by simp)⟩

/-- C3: on Scenario A the pipeline emits exactly one row: station code 1,
bikes-available 3 (the source subtracts the e-bike count), e-bikes 2,
disabled 1, docks 10, and timestamp 1699999980000 ms (1700000000 s truncated
to the start of its minute, in milliseconds). -/
theorem scenarioA_result :
    runPipeline [some snapshotA] =
      some
        ({ times := [1699999980000], station_ids := [1],
           num_bikes_available := [3], num_ebikes_available := [2],
           num_bikes_disabled := [1], num_docks_available := [10] },
         { id_legend := [("123", 1)], id_counter := 1 }) := by
  decide

/-! Pipeline lemmas: column lengths, times column shape, failure propagation. -/

theorem appendStation_some {time : Int} {acc acc' : Builders × Interner} {stn : Station}
    (h : appendStation time acc stn = some acc') :
    ∃ code it' avail, acc.2.intern stn.station_id = some (code, it') ∧
      checkedSub stn.num_bikes_available stn.num_ebikes_available = some avail ∧
      acc' = (appendRow acc.1 time code avail stn, it') := by
  unfold appendStation at h
  cases hi : acc.2.intern stn.station_id with
  | none => rw [hi] at h; cases h
  | some p =>
    obtain ⟨code, it'⟩ := p
    rw [hi] at h
    cases hs : checkedSub stn.num_bikes_available stn.num_ebikes_available with
    | none => rw [hs] at h; cases h
    | some avail =>
      rw [hs] at h
      cases h
      exact ⟨code, it', avail, rfl, rfl, rfl⟩

theorem foldStations_some_cons {time : Int} {stn : Station} {ss : List Station}
    {acc : Builders × Interner} {acc' : Builders × Interner}
    (h : foldStations time (stn :: ss) acc = some acc') :
    ∃ acc1, appendStation time acc stn = some acc1 ∧ foldStations time ss acc1 = some acc' := by
  unfold foldStations at h
  cases ha : appendStation time acc stn with
  | none => rw [ha] at h; cases h
  | some acc1 =>
    rw [ha] at h
    exact ⟨acc1, rfl, h⟩

theorem foldStations_lengths {time : Int} (ss : List Station)
    {acc acc' : Builders × Interner} (h : foldStations time ss acc = some acc') :
    acc'.1.times.length = acc.1.times.length + ss.length ∧
    acc'.1.station_ids.length = acc.1.station_ids.length + ss.length ∧
    acc'.1.num_bikes_available.length = acc.1.num_bikes_available.length + ss.length ∧
    acc'.1.num_ebikes_available.length = acc.1.num_ebikes_available.length + ss.length ∧
    acc'.1.num_bikes_disabled.length = acc.1.num_bikes_disabled.length + ss.length ∧
    acc'.1.num_docks_available.length = acc.1.num_docks_available.length + ss.length := by
  induction ss generalizing acc with
  | nil =>
    cases h
    simp
  | cons stn rest ih =>
    obtain ⟨acc1, ha, hf⟩ := foldStations_some_cons h
    obtain ⟨code, it', avail, _, _, he⟩ := appendStation_some ha
    obtain ⟨l1, l2, l3, l4, l5, l6⟩ := ih hf
    subst he
    simp only [appendRow, List.length_append, List.length_cons, List.length_nil]
      at l1 l2 l3 l4 l5 l6 ⊢
    omega

theorem foldStations_times {time : Int} (ss : List Station)
    {acc acc' : Builders × Interner} (h : foldStations time ss acc = some acc') :
    acc'.1.times = acc.1.times ++ List.replicate ss.length time := by
  induction ss generalizing acc with
  | nil =>
    cases h
    simp
  | cons stn rest ih =>
    obtain ⟨acc1, ha, hf⟩ := foldStations_some_cons h
    obtain ⟨code, it', avail, _, _, he⟩ := appendStation_some ha
    subst he
    rw [ih hf]
    simp [appendRow, List.replicate_succ]

theorem processSnapshot_lengths {acc acc' : Builders × Interner} {status : StationStatus}
    (h : processSnapshot acc status = some acc') :
    acc'.1.times.length = acc.1.times.length + activeCount status ∧
    acc'.1.station_ids.length = acc.1.station_ids.length + activeCount status ∧
    acc'.1.num_bikes_available.length = acc.1.num_bikes_available.length + activeCount status ∧
    acc'.1.num_ebikes_available.length = acc.1.num_ebikes_available.length + activeCount status ∧
    acc'.1.num_bikes_disabled.length = acc.1.num_bikes_disabled.length + activeCount status ∧
    acc'.1.num_docks_available.length = acc.1.num_docks_available.length + activeCount status :=
  foldStations_lengths _ h

/-- C1: a successfully processed snapshot contributes exactly one row per
station record whose status flag is exactly `"active"` (every column grows
by `activeCount`), and removing the non-active records from the snapshot
beforehand changes nothing — no non-active record contributes a row. -/
theorem processSnapshot_active_rows {acc acc' : Builders × Interner} {status : StationStatus}
    (h : processSnapshot acc status = some acc') :
    (acc'.1.times.length = acc.1.times.length + activeCount status ∧
     acc'.1.station_ids.length = acc.1.station_ids.length + activeCount status ∧
     acc'.1.num_bikes_available.length = acc.1.num_bikes_available.length + activeCount status ∧
     acc'.1.num_ebikes_available.length = acc.1.num_ebikes_available.length + activeCount status ∧
     acc'.1.num_bikes_disabled.length = acc.1.num_bikes_disabled.length + activeCount status ∧
     acc'.1.num_docks_available.length = acc.1.num_docks_available.length + activeCount status) ∧
    processSnapshot acc (restrictActive status) = some acc' := by
  refine ⟨processSnapshot_lengths h, ?_⟩
  unfold processSnapshot at h ⊢
  unfold restrictActive
  simpa [List.filter_filter, Bool.and_self] using h

/-- Witness for C1 at Scenario A's snapshot. -/
theorem processSnapshot_active_rows_witness :
    processSnapshot (Builders.empty, Interner.empty) snapshotA = some accA ∧
    ((accA.1.times.length =
        (Builders.empty, Interner.empty).1.times.length + activeCount snapshotA ∧
      accA.1.station_ids.length =
        (Builders.empty, Interner.empty).1.station_ids.length + activeCount snapshotA ∧
      accA.1.num_bikes_available.length =
        (Builders.empty, Interner.empty).1.num_bikes_available.length + activeCount snapshotA ∧
      accA.1.num_ebikes_available.length =
        (Builders.empty, Interner.empty).1.num_ebikes_available.length + activeCount snapshotA ∧
      accA.1.num_bikes_disabled.length =
        (Builders.empty, Interner.empty).1.num_bikes_disabled.length + activeCount snapshotA ∧
      accA.1.num_docks_available.length =
        (Builders.empty, Interner.empty).1.num_docks_available.length + activeCount snapshotA) ∧
     processSnapshot (Builders.empty, Interner.empty) (restrictActive snapshotA) = some accA) :=
  ⟨by decide, processSnapshot_active_rows (by decide)⟩

theorem runPipelineFrom_lengths (inputs : List (Option StationStatus))
    {acc acc' : Builders × Interner} (h : runPipelineFrom acc inputs = some acc') :
    acc'.1.times.length = acc.1.times.length + totalRows inputs ∧
    acc'.1.station_ids.length = acc.1.station_ids.length + totalRows inputs ∧
    acc'.1.num_bikes_available.length = acc.1.num_bikes_available.length + totalRows inputs ∧
    acc'.1.num_ebikes_available.length = acc.1.num_ebikes_available.length + totalRows inputs ∧
    acc'.1.num_bikes_disabled.length = acc.1.num_bikes_disabled.length + totalRows inputs ∧
    acc'.1.num_docks_available.length = acc.1.num_docks_available.length + totalRows inputs := by
  induction inputs generalizing acc with
  | nil =>
    cases h
    simp [totalRows]
  | cons input rest ih =>
    cases input with
    | none => cases h
    | some status =>
      unfold runPipelineFrom at h
      cases hp : processSnapshot acc status with
      | none => rw [hp] at h; cases h
      | some acc1 =>
        rw [hp] at h
        obtain ⟨p1, p2, p3, p4, p5, p6⟩ := processSnapshot_lengths hp
        obtain ⟨r1, r2, r3, r4, r5, r6⟩ := ih h
        have ht : totalRows (some status :: rest) = activeCount status + totalRows rest := by
          simp [totalRows, List.filterMap_cons]
        rw [ht]
        omega

theorem processSnapshot_times {acc acc' : Builders × Interner} {status : StationStatus}
    (h : processSnapshot acc status = some acc') :
    acc'.1.times = acc.1.times ++
      List.replicate (activeCount status) (timestampMillis status.last_updated) :=
  foldStations_times _ h

theorem runPipelineFrom_times (inputs : List (Option StationStatus))
    {acc acc' : Builders × Interner} (h : runPipelineFrom acc inputs = some acc') :
    acc'.1.times = acc.1.times ++
      ((inputs.filterMap id).map
        (fun s => List.replicate (activeCount s) (timestampMillis s.last_updated))).flatten := by
  induction inputs generalizing acc with
  | nil =>
    cases h
    simp
  | cons input rest ih =>
    cases input with
    | none => cases h
    | some status =>
      unfold runPipelineFrom at h
      cases hp : processSnapshot acc status with
      | none => rw [hp] at h; cases h
      | some acc1 =>
        rw [hp] at h
        rw [ih h, processSnapshot_times hp]
        simp [List.filterMap_cons, List.append_assoc]

/-- C4: at the end of every successful run, all six column arrays of the
produced batch have the same length, and that common length is the total
number of normalized rows appended (the sum of the active-station counts of
the decoded snapshots). -/
theorem runPipeline_columns_aligned (inputs : List (Option StationStatus))
    (bs : Builders) (it : Interner) (h : runPipeline inputs = some (bs, it)) :
    bs.station_ids.length = bs.times.length ∧
    bs.num_bikes_available.length = bs.times.length ∧
    bs.num_ebikes_available.length = bs.times.length ∧
    bs.num_bikes_disabled.length = bs.times.length ∧
    bs.num_docks_available.length = bs.times.length ∧
    bs.times.length = totalRows inputs := by
  obtain ⟨l1, l2, l3, l4, l5, l6⟩ := runPipelineFrom_lengths inputs h
  simp only [Builders.empty, List.length_nil] at l1 l2 l3 l4 l5 l6
  omega

/-- Witness for C4 at the one-snapshot Scenario A run. -/
theorem runPipeline_columns_aligned_witness :
    runPipeline [some snapshotA] = some (bsA, itA) ∧
    (bsA.station_ids.length = bsA.times.length ∧
     bsA.num_bikes_available.length = bsA.times.length ∧
     bsA.num_ebikes_available.length = bsA.times.length ∧
     bsA.num_bikes_disabled.length = bsA.times.length ∧
     bsA.num_docks_available.length = bsA.times.length ∧
     bsA.times.length = totalRows [some snapshotA]) :=
  ⟨by decide, runPipeline_columns_aligned [some snapshotA] bsA itA (by decide)⟩

/-- C5: the timestamp column of a successful run is exactly, per decoded
snapshot in order, that snapshot's single derived timestamp repeated once
for every one of its active-station rows — the per-snapshot timestamp is
broadcast across the snapshot's rows. -/
theorem runPipeline_times_broadcast (inputs : List (Option StationStatus))
    (bs : Builders) (it : Interner) (h : runPipeline inputs = some (bs, it)) :
    bs.times = ((inputs.filterMap id).map
      (fun s => List.replicate (activeCount s) (timestampMillis s.last_updated))).flatten := by
  simpa [Builders.empty] using runPipelineFrom_times inputs h

/-- Witness for C5 at the one-snapshot Scenario A run. -/
theorem runPipeline_times_broadcast_witness :
    runPipeline [some snapshotA] = some (bsA, itA) ∧
    bsA.times = (([some snapshotA].filterMap id).map
      (fun s => List.replicate (activeCount s) (timestampMillis s.last_updated))).flatten :=
  ⟨by decide, runPipeline_times_broadcast [some snapshotA] bsA itA (by decide)⟩

theorem runPipelineFrom_none (inputs : List (Option StationStatus))
    (h : none ∈ inputs) : ∀ acc, runPipelineFrom acc inputs = none := by
  induction inputs with
  | nil => simp at h
  | cons input rest ih =>
    intro acc
    cases input with
    | none => rfl
    | some status =>
      have hr : none ∈ rest := by
        rcases List.mem_cons.mp h with he | hr
        · cases he
        · exact hr
      unfold runPipelineFrom
      cases hp : processSnapshot acc status with
      | none => rfl
      | some acc1 => exact ih hr acc1

/-- C7: when any input blob fails to decode (corrupt gzip or unparsable
JSON, a `none` decode outcome, on which the source's `.unwrap()` panics),
the whole run aborts: no batch and no valid output file is produced. -/
theorem runPipeline_decode_error (inputs : List (Option StationStatus))
    (h : none ∈ inputs) : runPipeline inputs = none :=
  runPipelineFrom_none inputs h (Builders.empty, Interner.empty)

/-- Witness for C7: a run with one good snapshot followed by one failing
blob produces nothing. -/
theorem runPipeline_decode_error_witness :
    none ∈ [some snapshotA, none] ∧
    runPipeline [some snapshotA, none] = none :=
  ⟨by simp, runPipeline_decode_error [some snapshotA, none] (by simp)⟩

/-- C10: every value in the emitted timestamp column is a whole-minute
instant — a multiple of 60,000 ms — and equals the originating snapshot's
`last_updated` with its seconds-within-minute zeroed, scaled to
milliseconds. -/
theorem runPipeline_times_minute_truncated (inputs : List (Option StationStatus))
    (bs : Builders) (it : Interner) (h : runPipeline inputs = some (bs, it)) :
    ∀ t ∈ bs.times, (60000 : Int) ∣ t ∧
      ∃ s : StationStatus, some s ∈ inputs ∧
        t = (s.last_updated - s.last_updated % 60) * 1000 := by
  have hb : bs.times = ((inputs.filterMap id).map
      (fun s => List.replicate (activeCount s) (timestampMillis s.last_updated))).flatten := by
    simpa [Builders.empty] using runPipelineFrom_times inputs h
  intro t ht
  rw [hb] at ht
  obtain ⟨l, hl, htl⟩ := List.mem_flatten.mp ht
  obtain ⟨s, hs, rfl⟩ := List.mem_map.mp hl
  have hts : t = timestampMillis s.last_updated := List.eq_of_mem_replicate htl
  have hmem : some s ∈ inputs := by
    obtain ⟨a, ha, hfa⟩ := List.mem_filterMap.mp hs
    cases hfa
    exact ha
  refine ⟨⟨s.last_updated / 60, ?_⟩, s, hmem, ?_⟩
  · rw [hts]
    unfold timestampMillis truncateToMinute secondOfMinute
    omega
  · rw [hts]
    rfl

/-- Witness for C10 at the one-snapshot Scenario A run. -/
theorem runPipeline_times_minute_truncated_witness :
    runPipeline [some snapshotA] = some (bsA, itA) ∧
    ∀ t ∈ bsA.times, (60000 : Int) ∣ t ∧
      ∃ s : StationStatus, some s ∈ [some snapshotA] ∧
        t = (s.last_updated - s.last_updated % 60) * 1000 :=
  ⟨by decide, runPipeline_times_minute_truncated [some snapshotA] bsA itA (by decide)⟩

/-! Normalization as a per-snapshot function, and its relation to the
accumulated run: appending into larger builders is the same as appending
into empty ones and concatenating (`foldStations_shift`). -/

theorem appendCols_empty_right (b : Builders) : appendCols b Builders.empty = b := by
  simp [appendCols, Builders.empty]

theorem appendCols_assoc (a b c : Builders) :
    appendCols (appendCols a b) c = appendCols a (appendCols b c) := by
  simp [appendCols, List.append_assoc]

theorem appendStation_shift (time : Int) (b d : Builders) (it : Interner) (stn : Station) :
    appendStation time (appendCols b d, it) stn =
      Option.map (fun p => (appendCols b p.1, p.2)) (appendStation time (d, it) stn) := by
  unfold appendStation
  cases hi : it.intern stn.station_id with
  | none => rfl
  | some p =>
    obtain ⟨code, it'⟩ := p
    cases hs : checkedSub stn.num_bikes_available stn.num_ebikes_available with
    | none => rfl
    | some avail =>
      simp [appendRow, appendCols, List.append_assoc]

theorem foldStations_shift (ss : List Station) (time : Int) (b : Builders) (it : Interner) :
    foldStations time ss (b, it) =
      Option.map (fun p => (appendCols b p.1, p.2))
        (foldStations time ss (Builders.empty, it)) := by
  induction ss generalizing b it with
  | nil => simp [foldStations, appendCols_empty_right]
  | cons stn rest ih =>
    have hb : appendStation time (b, it) stn =
        Option.map (fun p => (appendCols b p.1, p.2))
          (appendStation time (Builders.empty, it) stn) := by
      have hsh := appendStation_shift time b Builders.empty it stn
      rwa [appendCols_empty_right] at hsh
    show foldStations time (stn :: rest) (b, it) = _
    unfold foldStations
    cases hA : appendStation time (Builders.empty, it) stn with
    | none =>
      rw [hA] at hb
      rw [hb]
      rfl
    | some acc1 =>
      obtain ⟨d1, it1⟩ := acc1
      rw [hA] at hb
      rw [hb]
      show foldStations time rest (appendCols b d1, it1) =
        Option.map (fun p => (appendCols b p.1, p.2)) (foldStations time rest (d1, it1))
      rw [ih (appendCols b d1) it1, ih d1 it1]
      cases hr : foldStations time rest (Builders.empty, it1) with
      | none => rfl
      | some p =>
        obtain ⟨d2, it2⟩ := p
        simp [appendCols_assoc]

theorem foldStations_preserves_lookup {time : Int} (ss : List Station)
    {acc acc' : Builders × Interner} {s : String} {c : Nat}
    (hs : lookupCode acc.2.id_legend s = some c)
    (h : foldStations time ss acc = some acc') :
    lookupCode acc'.2.id_legend s = some c := by
  induction ss generalizing acc with
  | nil =>
    cases h
    exact hs
  | cons stn rest ih =>
    obtain ⟨acc1, ha, hf⟩ := foldStations_some_cons h
    obtain ⟨code, it', avail, hi, hsub, he⟩ := appendStation_some ha
    subst he
    exact ih (Interner.intern_preserves_lookup hs hi) hf

theorem foldStations_repeat (ss : List Station) (time : Int)
    {it : Interner} {bs : Builders} {it' : Interner}
    (h : foldStations time ss (Builders.empty, it) = some (bs, it')) :
    foldStations time ss (Builders.empty, it') = some (bs, it') := by
  induction ss generalizing it bs it' with
  | nil =>
    cases h
    rfl
  | cons stn rest ih =>
    obtain ⟨acc1, hA, hf⟩ := foldStations_some_cons h
    obtain ⟨code, it1, avail, hi, hsub, he⟩ := appendStation_some hA
    subst he
    rw [foldStations_shift rest time (appendRow Builders.empty time code avail stn) it1] at hf
    cases hr : foldStations time rest (Builders.empty, it1) with
    | none =>
      rw [hr] at hf
      cases hf
    | some p =>
      obtain ⟨d, it2⟩ := p
      rw [hr] at hf
      simp only [Option.map_some', Option.some.injEq, Prod.mk.injEq] at hf
      obtain ⟨hbs, hit⟩ := hf
      rw [← hit]
      have hrep := ih hr
      have hlook1 : lookupCode it1.id_legend stn.station_id = some code :=
        Interner.intern_lookup hi
      have hlook2 : lookupCode it2.id_legend stn.station_id = some code :=
        foldStations_preserves_lookup rest hlook1 hr
      have hi2 : it2.intern stn.station_id = some (code, it2) :=
        Interner.intern_of_lookup hlook2
      have hA2 : appendStation time (Builders.empty, it2) stn =
          some (appendRow Builders.empty time code avail stn, it2) := by
        unfold appendStation
        rw [show (Builders.empty, it2).2.intern stn.station_id = some (code, it2) from hi2]
        rw [hsub]
      show foldStations time (stn :: rest) (Builders.empty, it2) = some (bs, it2)
      unfold foldStations
      rw [hA2]
      show foldStations time rest (appendRow Builders.empty time code avail stn, it2) =
        some (bs, it2)
      rw [foldStations_shift rest time (appendRow Builders.empty time code avail stn) it2,
        hrep]
      simp only [Option.map_some']
      rw [hbs]

/-- C8: normalization of a decoded snapshot is deterministic — from one
interner state it has exactly one outcome — and idempotent in the stronger
sequential sense: re-normalizing the same snapshot from the interner state
the first pass produced yields the identical row columns and leaves the
interner unchanged. -/
theorem normalize_deterministic (it : Interner) (status : StationStatus) :
    (∀ r1 r2, normalize it status = r1 → normalize it status = r2 → r1 = r2) ∧
    (∀ bs it', normalize it status = some (bs, it') →
      normalize it' status = some (bs, it')) := by
  constructor
  · intro r1 r2 h1 h2
    rw [← h1, ← h2]
  · intro bs it' h
    exact foldStations_repeat _ _ h

/-- Witness for C8 at Scenario A's snapshot. -/
theorem normalize_deterministic_witness :
    normalize Interner.empty snapshotA = some (bsA, itA) ∧
    normalize itA snapshotA = some (bsA, itA) :=
  ⟨by decide, (normalize_deterministic Interner.empty snapshotA).2 bsA itA (by decide)⟩

/-! Underflow of the bikes-minus-ebikes derivation. -/

theorem appendStation_underflow (time : Int) (acc : Builders × Interner) (stn : Station)
    (h : stn.num_bikes_available < stn.num_ebikes_available) :
    appendStation time acc stn = none := by
  unfold appendStation
  cases hi : acc.2.intern stn.station_id with
  | none => rfl
  | some p =>
    obtain ⟨code, it'⟩ := p
    have hs : checkedSub stn.num_bikes_available stn.num_ebikes_available = none := by
      unfold checkedSub
      rw [if_neg (by omega)]
    rw [hs]

theorem foldStations_underflow (ss : List Station) (time : Int) {stn : Station}
    (hmem : stn ∈ ss) (h : stn.num_bikes_available < stn.num_ebikes_available) :
    ∀ acc, foldStations time ss acc = none := by
  induction ss with
  | nil => simp at hmem
  | cons u rest ih =>
    intro acc
    show foldStations time (u :: rest) acc = none
    unfold foldStations
    cases ha : appendStation time acc u with
    | none => rfl
    | some acc1 =>
      rcases List.mem_cons.mp hmem with he | hr
      · subst he
        rw [appendStation_underflow time acc stn h] at ha
        cases ha
      · exact ih hr acc1

theorem appendStation_ok (time : Int) (acc : Builders × Interner) (stn : Station)
    (hsub : stn.num_ebikes_available ≤ stn.num_bikes_available)
    (hcap : acc.2.id_counter + 1 ≤ 65535) :
    ∃ acc1, appendStation time acc stn = some acc1 ∧
      acc1.2.id_counter ≤ acc.2.id_counter + 1 := by
  have hs : checkedSub stn.num_bikes_available stn.num_ebikes_available =
      some (stn.num_bikes_available - stn.num_ebikes_available) := by
    unfold checkedSub
    rw [if_pos hsub]
  cases hl : lookupCode acc.2.id_legend stn.station_id with
  | some c =>
    refine ⟨(appendRow acc.1 time c (stn.num_bikes_available - stn.num_ebikes_available) stn,
             acc.2), ?_, Nat.le_succ _⟩
    unfold appendStation
    rw [Interner.intern_of_lookup hl, hs]
  | none =>
    have hi : acc.2.intern stn.station_id =
        some (acc.2.id_counter + 1,
          { id_legend := acc.2.id_legend ++ [(stn.station_id, acc.2.id_counter + 1)],
            id_counter := acc.2.id_counter + 1 }) := by
      unfold Interner.intern
      rw [hl, if_pos hcap]
    refine ⟨(appendRow acc.1 time (acc.2.id_counter + 1)
               (stn.num_bikes_available - stn.num_ebikes_available) stn,
             { id_legend := acc.2.id_legend ++ [(stn.station_id, acc.2.id_counter + 1)],
               id_counter := acc.2.id_counter + 1 }), ?_, Nat.le_refl _⟩
    unfold appendStation
    rw [hi, hs]

theorem foldStations_ok (ss : List Station) (time : Int) :
    ∀ acc : Builders × Interner,
      (∀ stn ∈ ss, stn.num_ebikes_available ≤ stn.num_bikes_available) →
      acc.2.id_counter + ss.length ≤ 65535 →
      ∃ acc', foldStations time ss acc = some acc' := by
  induction ss with
  | nil => exact fun acc _ _ => ⟨acc, rfl⟩
  | cons stn rest ih =>
    intro acc hsub hcap
    obtain ⟨acc1, ha, hcnt⟩ := appendStation_ok time acc stn
      (hsub stn (List.mem_cons_self _ _))
      (by simp only [List.length_cons] at hcap; omega)
    obtain ⟨acc', h'⟩ := ih acc1 (fun u hu => hsub u (List.mem_cons_of_mem _ hu))
      (by simp only [List.length_cons] at hcap; omega)
    refine ⟨acc', ?_⟩
    show foldStations time (stn :: rest) acc = some acc'
    unfold foldStations
    rw [ha]
    exact h'

/-- C9: the bikes-available derivation `num_bikes_available -
num_ebikes_available` on `u16` forces a precondition: an active station
record with more available e-bikes than available bikes underflows the
subtraction and aborts the snapshot's processing (no row is produced at
all); when every active record satisfies `ebikes ≤ bikes` (and the
identifier space is not exhausted) the subtraction never underflows and the
snapshot processes successfully. -/
theorem bikes_underflow_guard (acc : Builders × Interner) (status : StationStatus) :
    (∀ stn ∈ status.data.stations, stn.station_status = "active" →
      stn.num_bikes_available < stn.num_ebikes_available →
      processSnapshot acc status = none) ∧
    ((∀ stn ∈ status.data.stations, stn.station_status = "active" →
        stn.num_ebikes_available ≤ stn.num_bikes_available) →
      acc.2.id_counter + activeCount status ≤ 65535 →
      ∃ acc', processSnapshot acc status = some acc') := by
  constructor
  · intro stn hmem hact hlt
    unfold processSnapshot
    exact foldStations_underflow _ _
      (List.mem_filter.mpr ⟨hmem, by simp [isActive, hact]⟩) hlt acc
  · intro hsub hcap
    unfold processSnapshot
    exact foldStations_ok _ _ acc
      (fun stn hmemf => hsub stn (List.mem_filter.mp hmemf).1
        (by simpa [isActive] using (List.mem_filter.mp hmemf).2))
      hcap

/-- Witness for C9: the underflow case at `snapshotU`, and the successful
case at Scenario A's snapshot. -/
theorem bikes_underflow_guard_witness :
    (stationU ∈ snapshotU.data.stations ∧ stationU.station_status = "active" ∧
      stationU.num_bikes_available < stationU.num_ebikes_available) ∧
    processSnapshot (Builders.empty, Interner.empty) snapshotU = none ∧
    ((∀ stn ∈ snapshotA.data.stations, stn.station_status = "active" →
        stn.num_ebikes_available ≤ stn.num_bikes_available) ∧
      (Builders.empty, Interner.empty).2.id_counter + activeCount snapshotA ≤ 65535) ∧
    (∃ acc', processSnapshot (Builders.empty, Interner.empty) snapshotA = some acc') :=
  ⟨⟨by decide, by decide, by decide⟩,
   (bikes_underflow_guard (Builders.empty, Interner.empty) snapshotU).1 stationU
     (by decide) (by decide) (by decide),
   ⟨by decide, by decide⟩,
   (bikes_underflow_guard (Builders.empty, Interner.empty) snapshotA).2
     (by decide) (by decide)⟩

end Bikeshare
